import Mathlib

/-!
Shallow embedding of the Pull-Request Orchestration Engine of the
`genai_hackathon` backend, together with proofs about its claims.

Python strings are modelled as `List Char` where character-level
behaviour matters (splitting, stripping) and as `String` elsewhere;
request bodies (Python `bytes`) are `List Nat`.  Platform-side effects
(GitHub REST calls) are modelled by explicit state passing over a
`GitServer` record plus a trace of emitted API calls.
-/

namespace GenAI

/-! ## String helpers mirroring Python built-ins -/

/-- Python `str.split(sep)` for a one-character separator: splits on every
occurrence, keeping empty pieces (`"".split('=') == ['']`). -/
def pysplit (sep : Char) : List Char → List (List Char)
  | [] => [[]]
  | c :: cs =>
    if c = sep then [] :: pysplit sep cs
    else
      match pysplit sep cs with
      | [] => [[c]]
      | t :: ts => (c :: t) :: ts

/-- Inverse of `pysplit`: interleave the separator back between pieces. -/
def pyjoin (sep : Char) : List (List Char) → List Char
  | [] => []
  | [p] => p
  | p :: ps => p ++ sep :: pyjoin sep ps

theorem pysplit_ne_nil (sep : Char) (l : List Char) : pysplit sep l ≠ [] := by
  cases l with
  | nil => simp [pysplit]
  | cons c cs =>
    simp only [pysplit]
    split
    · simp
    · rcases h : pysplit sep cs with _ | ⟨t, ts⟩ <;> simp

theorem pyjoin_pysplit (sep : Char) (l : List Char) :
    pyjoin sep (pysplit sep l) = l := by
  induction l with
  | nil => simp [pysplit, pyjoin]
  | cons c cs ih =>
    simp only [pysplit]
    split
    · rename_i hc
      rcases h : pysplit sep cs with _ | ⟨t, ts⟩
      · exact absurd h (pysplit_ne_nil sep cs)
      · rw [h] at ih
        simpa [pyjoin, hc] using ih
    · rcases h : pysplit sep cs with _ | ⟨t, ts⟩
      · exact absurd h (pysplit_ne_nil sep cs)
      · rw [h] at ih
        cases ts with
        | nil => simpa [pyjoin] using ih
        | cons u us => simpa [pyjoin] using ih

theorem pysplit_no_sep (sep : Char) (l : List Char) :
    ∀ p ∈ pysplit sep l, sep ∉ p := by
  induction l with
  | nil => simp [pysplit]
  | cons c cs ih =>
    simp only [pysplit]
    split
    · rename_i hc
      intro p hp
      rcases List.mem_cons.mp hp with rfl | hp
      · simp
      · exact ih p hp
    · rename_i hc
      rcases h : pysplit sep cs with _ | ⟨t, ts⟩
      · exact absurd h (pysplit_ne_nil sep cs)
      · rw [h] at ih
        intro p hp
        rcases List.mem_cons.mp hp with rfl | hp
        · intro hmem
          rcases List.mem_cons.mp hmem with rfl | hmem
          · exact hc rfl
          · exact ih t (by simp) hmem
        · exact ih p (by simp [hp])

/-- If `pysplit` returns exactly two pieces, the input was
`a ++ sep :: b` with no separator inside either piece. -/
theorem pysplit_eq_pair (sep : Char) (l a b : List Char)
    (h : pysplit sep l = [a, b]) :
    l = a ++ sep :: b ∧ sep ∉ a ∧ sep ∉ b := by
  have hj := pyjoin_pysplit sep l
  rw [h] at hj
  have hns := pysplit_no_sep sep l
  rw [h] at hns
  exact ⟨by simpa [pyjoin] using hj.symm, hns a (by simp), hns b (by simp)⟩

theorem pysplit_of_not_mem (sep : Char) (b : List Char) (hb : sep ∉ b) :
    pysplit sep b = [b] := by
  induction b with
  | nil => simp [pysplit]
  | cons c cs ih =>
    simp only [List.mem_cons, not_or] at hb
    have h1 : ¬ c = sep := fun h => hb.1 h.symm
    simp only [pysplit, if_neg h1, ih hb.2]

theorem pysplit_append_sep (sep : Char) (a b : List Char) (ha : sep ∉ a) :
    pysplit sep (a ++ sep :: b) = a :: pysplit sep b := by
  induction a with
  | nil => simp [pysplit]
  | cons c cs ih =>
    simp only [List.mem_cons, not_or] at ha
    have h1 : ¬ c = sep := fun h => ha.1 h.symm
    simp only [List.cons_append, pysplit, if_neg h1]
    rw [show cs.append (sep :: b) = cs ++ sep :: b from rfl, ih ha.2]

/-- Splitting `a ++ sep :: b` where neither piece contains the separator
yields exactly the pair `[a, b]`. -/
theorem pysplit_pair (sep : Char) (a b : List Char)
    (ha : sep ∉ a) (hb : sep ∉ b) :
    pysplit sep (a ++ sep :: b) = [a, b] := by
  rw [pysplit_append_sep sep a b ha, pysplit_of_not_mem sep b hb]

/-! ## Signature Verifier (`GitHubService.verify_webhook_signature`) -/

/-- Semantics of Python's `hmac.compare_digest` on two hex-digest strings:
a (constant-time) equality test.  Timing behaviour is outside the model;
the returned value is plain equality. -/
def compare_digest (a b : List Char) : Bool := decide (a = b)

/-- Tail of `verify_webhook_signature` after the header split: the tuple
unpacking `sha_name, signature = signature.split('=')` (a `ValueError`
unless there are exactly two pieces), the scheme check and the digest
comparison. -/
def checkHeaderParts (digest : List Char) :
    List (List Char) → Except String Bool
  | [sha_name, sig] =>
    if sha_name ≠ "sha256".toList then .ok false
    else .ok (compare_digest digest sig)
  | _ => .error "ValueError: tuple unpacking"

/-- Shallow embedding of `GitHubService.verify_webhook_signature` from
`backend/services/github_service.py` (lines 45-62).

* `hmacHex secret payload` abstracts
  `hmac.new(secret.encode(), msg=payload, digestmod=hashlib.sha256).hexdigest()`.
* `webhook_secret` is `none` when `GITHUB_WEBHOOK_SECRET` is unset; the code
  guard `if not self.webhook_secret` is falsy both for `None` and for the
  empty string.
* `.error` models the uncaught `ValueError` raised by the tuple unpacking
  `sha_name, signature = signature.split('=')` when the header does not
  contain exactly one `'='`. -/
def verify_webhook_signature (hmacHex : List Char → List Nat → List Char)
    (webhook_secret : Option (List Char)) (payload : List Nat)
    (signature : List Char) : Except String Bool :=
  match webhook_secret with
  | none => .ok false
  | some secret =>
    if secret = [] then .ok false
    else if signature = [] then .ok false
    else checkHeaderParts (hmacHex secret payload) (pysplit '=' signature)

/-- C3 counterexample: with a secret configured, a header whose scheme
prefix is not `sha256=` — here `"garbage"`, which contains no `'='` at
all — makes `verify_webhook_signature` raise `ValueError` from the tuple
unpacking instead of returning `false`. -/
theorem verify_sig_throws_on_eqless_header :
    verify_webhook_signature (fun _ _ => []) (some ("s".toList)) []
      ("garbage".toList) = .error "ValueError: tuple unpacking" ∧
    ∀ b : Bool,
      verify_webhook_signature (fun _ _ => []) (some ("s".toList)) []
        ("garbage".toList) ≠ .ok b := by
  constructor
  · rfl
  · intro b h
    simp [verify_webhook_signature, pysplit, checkHeaderParts] at h

/-- C3 (amended): the verifier returns `false` without throwing when no
secret is configured (unset or empty), when the header is empty, and when
the header splits on `'='` into exactly two pieces whose scheme part is
not `sha256`; a header with zero or several `'='` characters instead
raises `ValueError` (modelled `.error`). -/
theorem verify_sig_fails_closed (hmacHex : List Char → List Nat → List Char)
    (payload : List Nat) :
    (∀ sig, verify_webhook_signature hmacHex none payload sig = .ok false)
    ∧ (∀ sig, verify_webhook_signature hmacHex (some []) payload sig
        = .ok false)
    ∧ (∀ secret, verify_webhook_signature hmacHex (some secret) payload []
        = .ok false)
    ∧ (∀ secret a b, secret ≠ [] → a ≠ "sha256".toList →
        '=' ∉ a → '=' ∉ b →
        verify_webhook_signature hmacHex (some secret) payload
          (a ++ '=' :: b) = .ok false)
    ∧ (∀ secret sig, secret ≠ [] → sig ≠ [] →
        (pysplit '=' sig).length ≠ 2 →
        verify_webhook_signature hmacHex (some secret) payload sig
          = .error "ValueError: tuple unpacking") := by
  refine ⟨fun _ => rfl, fun _ => by simp [verify_webhook_signature],
    fun secret => ?_, fun secret a b hs ha hea heb => ?_,
    fun secret sig hs hsig hlen => ?_⟩
  · simp only [verify_webhook_signature]
    split <;> rfl
  · simp only [verify_webhook_signature, if_neg hs]
    rw [if_neg (by simp), pysplit_pair '=' a b hea heb]
    simp only [checkHeaderParts]
    rw [if_pos ha]
  · simp only [verify_webhook_signature, if_neg hs, if_neg hsig]
    rcases h : pysplit '=' sig with _ | ⟨x, _ | ⟨y, _ | _⟩⟩
    · exact absurd h (pysplit_ne_nil '=' sig)
    · rfl
    · exact absurd (by rw [h]; rfl) hlen
    · rfl

/-- Closed witness for `verify_sig_fails_closed`. -/
theorem verify_sig_fails_closed_witness :
    verify_webhook_signature (fun _ _ => ['0']) (some ("k".toList)) [0]
      ("sha1".toList ++ '=' :: "99".toList) = .ok false := by
  exact (verify_sig_fails_closed (fun _ _ => ['0']) [0]).2.2.2.1
    ("k".toList) ("sha1".toList) ("99".toList)
    (by decide) (by decide) (by decide) (by decide)

/-- C4: with a non-empty secret configured, `verify_webhook_signature`
returns `true` exactly for the header `sha256=` followed by the hex
HMAC-SHA256 digest of the payload under that secret, and returns `false`
for the digest computed under any secret yielding a different digest.
The digest comparison is `compare_digest`, whose value semantics is
equality. -/
theorem verify_sig_correct (hmacHex : List Char → List Nat → List Char)
    (secret : List Char) (payload : List Nat)
    (hs : secret ≠ []) (hd : '=' ∉ hmacHex secret payload) :
    (∀ sig, verify_webhook_signature hmacHex (some secret) payload sig
        = .ok true ↔ sig = "sha256".toList ++ '=' :: hmacHex secret payload)
    ∧ (∀ secret', '=' ∉ hmacHex secret' payload →
        hmacHex secret' payload ≠ hmacHex secret payload →
        verify_webhook_signature hmacHex (some secret) payload
          ("sha256".toList ++ '=' :: hmacHex secret' payload) = .ok false) := by
  constructor
  · intro sig
    constructor
    · intro h
      by_cases hsig : sig = []
      · simp [verify_webhook_signature, if_neg hs, hsig] at h
      · simp only [verify_webhook_signature, if_neg hs, if_neg hsig] at h
        rcases hp : pysplit '=' sig with _ | ⟨x, _ | ⟨y, _ | _⟩⟩ <;>
            rw [hp] at h
        · exact absurd hp (pysplit_ne_nil '=' sig)
        · exact absurd h (by simp [checkHeaderParts])
        · simp only [checkHeaderParts] at h
          by_cases hx : x = "sha256".toList
          · rw [if_neg (by simpa using hx)] at h
            have hy : hmacHex secret payload = y := by
              simpa [compare_digest] using h
            obtain ⟨h1, _, _⟩ := pysplit_eq_pair '=' sig x y hp
            rw [h1, hx, hy]
          · rw [if_pos (by simpa using hx)] at h
            exact absurd h (by simp)
        · exact absurd h (by simp [checkHeaderParts])
    · intro h
      subst h
      have hp := pysplit_pair '=' ("sha256".toList)
        (hmacHex secret payload) (by decide) hd
      simp only [verify_webhook_signature, if_neg hs]
      rw [if_neg (by simp), hp]
      simp [checkHeaderParts, compare_digest]
  · intro secret' hd' hne
    have hp := pysplit_pair '=' ("sha256".toList)
      (hmacHex secret' payload) (by decide) hd'
    simp only [verify_webhook_signature, if_neg hs]
    rw [if_neg (by simp), hp]
    have hne' : ¬ hmacHex secret payload = hmacHex secret' payload :=
      fun h => hne h.symm
    simp [checkHeaderParts, compare_digest, hne']

/-- Closed witness for `verify_sig_correct`: a two-secret HMAC model where
secret `"a"` digests to `"x"` and any other secret to `"y"`. -/
theorem verify_sig_correct_witness :
    verify_webhook_signature
      (fun s _ => if s = "a".toList then "x".toList else "y".toList)
      (some ("a".toList)) [] ("sha256".toList ++ '=' :: "x".toList)
      = .ok true ∧
    verify_webhook_signature
      (fun s _ => if s = "a".toList then "x".toList else "y".toList)
      (some ("a".toList)) [] ("sha256".toList ++ '=' :: "y".toList)
      = .ok false := by
  have h := verify_sig_correct
    (fun s _ => if s = "a".toList then "x".toList else "y".toList)
    ("a".toList) [] (by decide) (by decide)
  constructor
  · exact (h.1 _).mpr (by decide)
  · have := h.2 ("b".toList) (by decide) (by decide)
    simpa using this

/-! ## Git object-graph model (blobs, trees, commits, refs)

The hosting platform's low-level git API is modelled by a `GitServer`
record: association lists from SHA (a `Nat`) to objects plus a counter
`nextSha` issuing fresh SHAs for created objects.  `refEditFail` models
the platform rejecting the final ref update (`GithubException` with the
given HTTP status, e.g. a non-fast-forward conflict or missing write
permission).  Each operation also emits an `ApiCall` trace entry so that
the ordering of the builder's steps is observable. -/

/-- First-match association-list lookup. -/
def lookupA {α β : Type} [DecidableEq α] : List (α × β) → α → Option β
  | [], _ => none
  | (k', v) :: rest, k => if k' = k then some v else lookupA rest k

theorem lookupA_eq_none {α β : Type} [DecidableEq α]
    (l : List (α × β)) (k : α) (h : k ∉ l.map Prod.fst) :
    lookupA l k = none := by
  induction l with
  | nil => rfl
  | cons p rest ih =>
    simp only [List.map_cons, List.mem_cons, not_or] at h
    have h1 : ¬ p.1 = k := fun he => h.1 he.symm
    simp only [lookupA, if_neg h1, ih h.2]

theorem lookupA_append_right {α β : Type} [DecidableEq α]
    (l₁ l₂ : List (α × β)) (k : α) (h : k ∉ l₁.map Prod.fst) :
    lookupA (l₁ ++ l₂) k = lookupA l₂ k := by
  induction l₁ with
  | nil => rfl
  | cons p rest ih =>
    simp only [List.map_cons, List.mem_cons, not_or] at h
    have h1 : ¬ p.1 = k := fun he => h.1 he.symm
    simp only [List.cons_append, lookupA, if_neg h1]
    exact ih h.2

/-- One entry of a git tree, as in PyGithub's `InputGitTreeElement`. -/
structure GitTreeEntry where
  path : String
  mode : String
  type : String
  sha : Nat
deriving DecidableEq, Repr

/-- A git commit object. -/
structure GitCommitObj where
  message : String
  tree : Nat
  parents : List Nat
deriving DecidableEq, Repr

/-- The platform-side git state for one repository. -/
structure GitServer where
  refs : List (String × Nat)
  commits : List (Nat × GitCommitObj)
  trees : List (Nat × List GitTreeEntry)
  blobs : List (Nat × String)
  nextSha : Nat
  refEditFail : Option Nat
deriving DecidableEq

/-- Trace entry for one platform API call issued by the Commit Builder. -/
inductive ApiCall where
  | getRef (ref : String)
  | createBlob (content : String)
  | createTree
  | createCommit (message : String)
  | updateRef (ref : String) (sha : Nat)
deriving DecidableEq, Repr

def isUpdateRef : ApiCall → Bool
  | .updateRef _ _ => true
  | _ => false

/-- First tree entry with the given path. -/
def findEntry : List GitTreeEntry → String → Option GitTreeEntry
  | [], _ => none
  | e :: rest, p => if e.path = p then some e else findEntry rest p

/-- Semantics of `POST /git/trees` with a `base_tree`: the new entries are
overlaid on the base tree, entries for unlisted paths are kept. -/
def overlayTree (base newEntries : List GitTreeEntry) : List GitTreeEntry :=
  base.filter (fun e => newEntries.all (fun n => decide (n.path ≠ e.path)))
    ++ newEntries

/-- `repo.create_git_blob(content, "utf-8")`: store the content under a
fresh SHA. -/
def createGitBlob (srv : GitServer) (content : String) : Nat × GitServer :=
  (srv.nextSha,
    { srv with blobs := (srv.nextSha, content) :: srv.blobs,
               nextSha := srv.nextSha + 1 })

/-- `repo.create_git_tree(element_list, base_tree)`. -/
def createGitTree (srv : GitServer) (elements base : List GitTreeEntry) :
    Nat × GitServer :=
  (srv.nextSha,
    { srv with trees := (srv.nextSha, overlayTree base elements) :: srv.trees,
               nextSha := srv.nextSha + 1 })

/-- `repo.create_git_commit(message, tree, parents)`. -/
def createGitCommit (srv : GitServer) (message : String) (tree : Nat)
    (parents : List Nat) : Nat × GitServer :=
  (srv.nextSha,
    { srv with commits := (srv.nextSha, ⟨message, tree, parents⟩) :: srv.commits,
               nextSha := srv.nextSha + 1 })

/-- Point an existing ref at a new SHA (other refs untouched). -/
def setRef : List (String × Nat) → String → Nat → List (String × Nat)
  | [], _, _ => []
  | (r, s) :: rest, ref, sha =>
    if r = ref then (r, sha) :: rest else (r, s) :: setRef rest ref sha

/-- `ref.edit(sha)`: fails with a `GithubException` status when the
platform rejects the update (`refEditFail`), otherwise moves the ref. -/
def refEdit (srv : GitServer) (ref : String) (sha : Nat) :
    Except Nat GitServer :=
  match srv.refEditFail with
  | some status => .error status
  | none => .ok { srv with refs := setRef srv.refs ref sha }

/-- The blob-creation loop `for filename, content in files.items()`:
creates one blob per file and collects one `InputGitTreeElement` per file
with `mode='100644', type='blob'`, plus the trace of `createBlob` calls. -/
def createBlobElements (srv : GitServer) :
    List (String × String) → GitServer × List GitTreeEntry × List ApiCall
  | [] => (srv, [], [])
  | (filename, content) :: rest =>
    let (sha, srv1) := createGitBlob srv content
    let (srv2, elems, calls) := createBlobElements srv1 rest
    (srv2, ⟨filename, "100644", "blob", sha⟩ :: elems,
      .createBlob content :: calls)

/-- The blobs added by `createBlobElements` starting at SHA `n`
(most recent first, as they are prepended to the store). -/
def blobStack (n : Nat) : List (String × String) → List (Nat × String)
  | [] => []
  | (_, c) :: rest => blobStack (n + 1) rest ++ [(n, c)]

/-- The tree elements produced by `createBlobElements` starting at `n`. -/
def blobElems (n : Nat) : List (String × String) → List GitTreeEntry
  | [] => []
  | (f, _) :: rest => ⟨f, "100644", "blob", n⟩ :: blobElems (n + 1) rest

theorem createBlobElements_eq (srv : GitServer)
    (files : List (String × String)) :
    createBlobElements srv files =
      ({ srv with blobs := blobStack srv.nextSha files ++ srv.blobs,
                  nextSha := srv.nextSha + files.length },
       blobElems srv.nextSha files,
       files.map (fun fc => ApiCall.createBlob fc.2)) := by
  induction files generalizing srv with
  | nil => simp [createBlobElements, blobStack, blobElems]
  | cons fc rest ih =>
    obtain ⟨f, c⟩ := fc
    simp only [createBlobElements, createGitBlob, ih, blobStack, blobElems,
      List.map_cons, List.length_cons, Prod.mk.injEq, GitServer.mk.injEq]
    refine ⟨⟨trivial, trivial, trivial, ?_, by omega, trivial⟩, trivial⟩
    simp [List.append_assoc]

theorem blobStack_keys_ge (n : Nat) (files : List (String × String)) :
    ∀ k ∈ (blobStack n files).map Prod.fst, n ≤ k := by
  induction files generalizing n with
  | nil => simp [blobStack]
  | cons fc rest ih =>
    obtain ⟨f, c⟩ := fc
    intro k hk
    simp only [blobStack, List.map_append, List.mem_append] at hk
    rcases hk with hk | hk
    · have := ih (n + 1) k hk
      omega
    · simp at hk
      omega

theorem blobElems_paths (n : Nat) (files : List (String × String)) :
    (blobElems n files).map GitTreeEntry.path = files.map Prod.fst := by
  induction files generalizing n with
  | nil => rfl
  | cons fc rest ih =>
    obtain ⟨f, c⟩ := fc
    simp [blobElems, ih]

/-- Key association: for each file in the map the produced element carries
mode `100644`, type `blob`, and a fresh blob SHA holding exactly the
file's content. -/
theorem blob_assoc (files : List (String × String)) (n : Nat)
    (tail : List (Nat × String))
    (hnd : (files.map Prod.fst).Nodup) :
    ∀ fc ∈ files, ∃ e, findEntry (blobElems n files) fc.1 = some e
      ∧ e.mode = "100644" ∧ e.type = "blob"
      ∧ lookupA (blobStack n files ++ tail) e.sha = some fc.2 := by
  induction files generalizing n tail with
  | nil => simp
  | cons gd rest ih =>
    obtain ⟨g, d⟩ := gd
    simp only [List.map_cons, List.nodup_cons] at hnd
    intro fc hfc
    rcases List.mem_cons.mp hfc with rfl | hfc
    · refine ⟨⟨g, "100644", "blob", n⟩, ?_, rfl, rfl, ?_⟩
      · simp [blobElems, findEntry]
      · simp only [blobStack, List.append_assoc]
        rw [lookupA_append_right _ _ n
          (fun hmem => by have := blobStack_keys_ge (n + 1) rest n hmem; omega)]
        simp [lookupA]
    · have hne : g ≠ fc.1 := by
        intro h
        exact hnd.1 (h ▸ List.mem_map_of_mem Prod.fst hfc)
      obtain ⟨e, h1, h2, h3, h4⟩ := ih (n + 1) ((n, d) :: tail) hnd.2 fc hfc
      refine ⟨e, ?_, h2, h3, ?_⟩
      · simp only [blobElems, findEntry, if_neg hne]
        exact h1
      · simp only [blobStack, List.append_assoc]
        simpa using h4

theorem findEntry_append (l₁ l₂ : List GitTreeEntry) (p : String) :
    findEntry (l₁ ++ l₂) p =
      match findEntry l₁ p with
      | some e => some e
      | none => findEntry l₂ p := by
  induction l₁ with
  | nil => simp [findEntry]
  | cons e rest ih =>
    simp only [List.cons_append, findEntry]
    split <;> simp [ih]

theorem findEntry_eq_none (l : List GitTreeEntry) (p : String)
    (h : p ∉ l.map GitTreeEntry.path) : findEntry l p = none := by
  induction l with
  | nil => rfl
  | cons e rest ih =>
    simp only [List.map_cons, List.mem_cons, not_or] at h
    have h1 : ¬ e.path = p := fun he => h.1 he.symm
    simp only [findEntry, if_neg h1, ih h.2]

/-- Overlay lookup, listed path: the entry comes from the new elements. -/
theorem findEntry_overlay_listed (base elems : List GitTreeEntry)
    (p : String) (h : p ∈ elems.map GitTreeEntry.path) :
    findEntry (overlayTree base elems) p = findEntry elems p := by
  obtain ⟨n, hn, hnp⟩ := List.mem_map.mp h
  rw [overlayTree, findEntry_append, findEntry_eq_none]
  intro hmem
  obtain ⟨e, he, hep⟩ := List.mem_map.mp hmem
  have hef := (List.mem_filter.mp he).2
  rw [List.all_eq_true] at hef
  have hne := hef n hn
  rw [decide_eq_true_eq] at hne
  exact hne (hnp.trans hep.symm)

/-- Overlay lookup, unlisted path: the base tree's entry is untouched. -/
theorem findEntry_overlay_unlisted (base elems : List GitTreeEntry)
    (p : String) (h : p ∉ elems.map GitTreeEntry.path) :
    findEntry (overlayTree base elems) p = findEntry base p := by
  rw [overlayTree, findEntry_append]
  have hnone : findEntry elems p = none := findEntry_eq_none elems p h
  have hfilter : findEntry
      (base.filter (fun e => elems.all (fun n => decide (n.path ≠ e.path)))) p
      = findEntry base p := by
    induction base with
    | nil => rfl
    | cons e rest ih =>
      rw [List.filter_cons]
      by_cases hpred : (elems.all (fun n => decide (n.path ≠ e.path))) = true
      · rw [if_pos hpred]
        simp only [findEntry]
        split
        · rfl
        · exact ih
      · rw [if_neg hpred]
        have hep : ¬ e.path = p := by
          intro hep
          apply hpred
          rw [List.all_eq_true]
          intro n hn
          rw [decide_eq_true_eq]
          intro hne
          have hmem : n.path ∈ elems.map GitTreeEntry.path :=
            List.mem_map_of_mem GitTreeEntry.path hn
          rw [hne, hep] at hmem
          exact h hmem
        rw [ih]
        simp only [findEntry, if_neg hep]
  rw [hfilter]
  cases hb : findEntry base p <;> simp [hnone, hb]

/-! ## Commit Builder (`GitHubService.create_commit`,
`GitHubSimple.create_commit_with_fixes`)

Both Python functions perform literally the same five steps; they differ
only in how errors are surfaced (`create_commit` lets `GithubException`
propagate; `create_commit_with_fixes` catches it and returns a result
dict).  `commitAfterRef` embeds steps 2-5, shared verbatim by the two
functions' bodies after the branch ref has been resolved.  All three
return the final server state and the call trace in every case — objects
created server-side before a failure persist. -/

/-- Steps 2-5 after `get_git_ref` succeeded with tip `latest`:
read the tip commit and its tree (`repo.get_git_tree(latest_commit_sha)`
resp. `repo.get_git_commit(latest_commit_sha).tree`; reads are not
traced), create one blob per file, create the overlay tree, create the
commit with sole parent `latest`, and finally `ref.edit`. -/
def commitAfterRef (srv : GitServer) (refName : String) (latest : Nat)
    (files : List (String × String)) (message : String) :
    Except Nat Nat × GitServer × List ApiCall :=
  match lookupA srv.commits latest with
  | none => (.error 404, srv, [])
  | some tipCommit =>
    match lookupA srv.trees tipCommit.tree with
    | none => (.error 404, srv, [])
    | some baseTree =>
      let bres := createBlobElements srv files
      let tres := createGitTree bres.1 bres.2.1 baseTree
      let cres := createGitCommit tres.2 message tres.1 [latest]
      let calls := bres.2.2 ++
        [.createTree, .createCommit message, .updateRef refName cres.1]
      match refEdit cres.2 refName cres.1 with
      | .error st => (.error st, cres.2, calls)
      | .ok srv4 => (.ok cres.1, srv4, calls)

/-- Shallow embedding of `GitHubService.create_commit`
(`backend/services/github_service.py`, lines 114-149).  The `Except Nat`
result carries the new commit SHA or the HTTP status of the uncaught
`GithubException`. -/
def create_commit (srv : GitServer) (branch : String)
    (files : List (String × String)) (message : String) :
    Except Nat Nat × GitServer × List ApiCall :=
  let refName := "heads/" ++ branch
  match lookupA srv.refs refName with
  | none => (.error 404, srv, [.getRef refName])
  | some latest =>
    let r := commitAfterRef srv refName latest files message
    (r.1, r.2.1, .getRef refName :: r.2.2)

/-- Result dict of `GitHubSimple.create_commit_with_fixes`. -/
structure CommitResult where
  success : Bool
  commit_sha : Option Nat
  error : Option String
  message : String
deriving DecidableEq, Repr

/-- Error code chosen by the `except GithubException` handler of
`create_commit_with_fixes` from the exception's HTTP status. -/
def statusError (status : Nat) : String :=
  if status = 404 then "not_found"
  else if status = 403 then "forbidden"
  else "github_" ++ toString status

def statusMessage (status : Nat) : String :=
  if status = 404 then "Branch or repository not found"
  else if status = 403 then "No permission to push. Token needs 'repo' scope."
  else "GitHub API error"

/-- Shallow embedding of `GitHubSimple.create_commit_with_fixes`
(`backend/services/github_simple.py`, lines 145-229): same five steps as
`create_commit`, with `get_git_ref` failure mapped to `branch_not_found`
by the inner `try` and any other `GithubException` mapped to a structured
failure dict by the outer handler. -/
def create_commit_with_fixes (srv : GitServer) (branch : String)
    (files : List (String × String)) (message : String) :
    CommitResult × GitServer × List ApiCall :=
  let refName := "heads/" ++ branch
  match lookupA srv.refs refName with
  | none =>
    (⟨false, none, some "branch_not_found",
      "Branch '" ++ branch ++ "' not found. PR may be merged/closed."⟩,
     srv, [.getRef refName])
  | some latest =>
    match commitAfterRef srv refName latest files message with
    | (.error st, srv', calls) =>
      (⟨false, none, some (statusError st), statusMessage st⟩,
       srv', .getRef refName :: calls)
    | (.ok sha, srv', calls) =>
      (⟨true, some sha, none, "Commit created successfully"⟩,
       srv', .getRef refName :: calls)

/-- The success behaviour of steps 2-5: the call trace in strict order,
the commit object with sole parent `latest` over the overlay tree, the
overlay tree layering exactly the new `100644` blobs over the base tree,
and the ref moved to the new commit. -/
theorem commitAfterRef_ok (srv : GitServer) (refName : String) (latest : Nat)
    (files : List (String × String)) (message : String)
    (sha : Nat) (srv' : GitServer) (calls : List ApiCall)
    (hnd : (files.map Prod.fst).Nodup)
    (h : commitAfterRef srv refName latest files message
          = (.ok sha, srv', calls)) :
    calls = files.map (fun fc => ApiCall.createBlob fc.2)
        ++ [.createTree, .createCommit message, .updateRef refName sha]
    ∧ lookupA srv'.commits sha
        = some ⟨message, srv.nextSha + files.length, [latest]⟩
    ∧ (∃ baseTree,
        (lookupA srv.commits latest).bind
            (fun c => lookupA srv.trees c.tree) = some baseTree
        ∧ ∃ entries,
            lookupA srv'.trees (srv.nextSha + files.length) = some entries
            ∧ (∀ fc ∈ files, ∃ e, findEntry entries fc.1 = some e
                ∧ e.mode = "100644" ∧ e.type = "blob"
                ∧ lookupA srv'.blobs e.sha = some fc.2)
            ∧ (∀ p, p ∉ files.map Prod.fst →
                findEntry entries p = findEntry baseTree p))
    ∧ srv'.refs = setRef srv.refs refName sha := by
  unfold commitAfterRef at h
  split at h
  · exact absurd h (by simp)
  rename_i tipCommit hc
  split at h
  · exact absurd h (by simp)
  rename_i baseTree ht
  rw [createBlobElements_eq] at h
  simp only [createGitTree, createGitCommit, refEdit] at h
  split at h
  · exact absurd h (by simp)
  rename_i srv4 hok
  rcases hre : srv.refEditFail with _ | st <;> rw [hre] at hok
  case some => exact absurd hok (by simp)
  · simp only [Except.ok.injEq] at hok
    simp only [Prod.mk.injEq, Except.ok.injEq] at h
    obtain ⟨hsha, hsrv, hcalls⟩ := h
    subst hsha hcalls
    rw [← hsrv, ← hok]
    refine ⟨rfl, by simp [lookupA], ⟨baseTree, ?_, ?_⟩, rfl⟩
    · rw [hc]
      simpa using ht
    · refine ⟨overlayTree baseTree (blobElems srv.nextSha files),
        by simp [lookupA], fun fc hfc => ?_, fun p hp => ?_⟩
      · obtain ⟨e, h1, h2, h3, h4⟩ :=
          blob_assoc files srv.nextSha srv.blobs hnd fc hfc
        refine ⟨e, ?_, h2, h3, h4⟩
        rw [findEntry_overlay_listed _ _ _ ?_, h1]
        rw [blobElems_paths]
        exact List.mem_map_of_mem Prod.fst hfc
      · rw [findEntry_overlay_unlisted]
        rw [blobElems_paths]
        exact hp

/-- Count of attempted ref updates in a trace. -/
theorem countP_blobCalls (files : List (String × String)) :
    (List.map (fun fc => ApiCall.createBlob fc.2) files).countP
      isUpdateRef = 0 := by
  rw [List.countP_eq_zero]
  intro a ha
  obtain ⟨fc, _, rfl⟩ := List.mem_map.mp ha
  simp [isUpdateRef]

/-- C2 helper: whenever the platform will reject the ref update, steps
2-5 report an error, leave every ref untouched, and issue at most one
(attempted) ref update. -/
theorem commitAfterRef_refEditFail (srv : GitServer) (refName : String)
    (latest : Nat) (files : List (String × String)) (message : String)
    (res : Except Nat Nat) (srv' : GitServer) (calls : List ApiCall)
    (st : Nat) (hre : srv.refEditFail = some st)
    (h : commitAfterRef srv refName latest files message
          = (res, srv', calls)) :
    (∃ st', res = .error st') ∧ srv'.refs = srv.refs
    ∧ calls.countP isUpdateRef ≤ 1 := by
  unfold commitAfterRef at h
  split at h
  · simp only [Prod.mk.injEq] at h
    obtain ⟨h1, h2, h3⟩ := h
    exact ⟨⟨404, h1.symm⟩, by rw [← h2], by rw [← h3]; simp⟩
  rename_i tipCommit hc
  split at h
  · simp only [Prod.mk.injEq] at h
    obtain ⟨h1, h2, h3⟩ := h
    exact ⟨⟨404, h1.symm⟩, by rw [← h2], by rw [← h3]; simp⟩
  rename_i baseTree ht
  rw [createBlobElements_eq] at h
  simp only [createGitTree, createGitCommit, refEdit] at h
  split at h
  · rename_i st0 herr
    rw [hre] at herr
    simp only [Except.error.injEq] at herr
    simp only [Prod.mk.injEq] at h
    obtain ⟨h1, h2, h3⟩ := h
    refine ⟨⟨st0, h1.symm⟩, by rw [← h2], ?_⟩
    rw [← h3]
    simp [List.countP_append, List.countP_cons, countP_blobCalls,
      isUpdateRef]
  · rename_i srv4 hok
    rw [hre] at hok
    exact absurd hok (by simp)

/-- C1: for every branch, non-empty file map, message (and token — tokens
are outside the model), a successful run of the commit builder resolves
the branch tip from its ref, creates one content blob per file, creates
one tree layering exactly those blobs (mode `100644`) over the branch's
existing tree with unlisted paths untouched, creates exactly one commit
whose sole parent is the resolved tip and whose tree is the new tree, and
only then — as the last API call of the trace — updates the branch ref to
that commit.  `GitHubSimple.create_commit_with_fixes` performs the
identical steps, wrapping the same outcome in a result dict. -/
theorem create_commit_strict_order (srv : GitServer) (branch : String)
    (files : List (String × String)) (message : String)
    (sha : Nat) (srv' : GitServer) (trace : List ApiCall)
    (hne : files ≠ [])
    (hnd : (files.map Prod.fst).Nodup)
    (h : create_commit srv branch files message = (.ok sha, srv', trace)) :
    ∃ oldTip,
      lookupA srv.refs ("heads/" ++ branch) = some oldTip
      ∧ trace = .getRef ("heads/" ++ branch)
          :: (files.map (fun fc => ApiCall.createBlob fc.2)
              ++ [.createTree, .createCommit message,
                  .updateRef ("heads/" ++ branch) sha])
      ∧ lookupA srv'.commits sha
          = some ⟨message, srv.nextSha + files.length, [oldTip]⟩
      ∧ (∃ baseTree,
          (lookupA srv.commits oldTip).bind
              (fun c => lookupA srv.trees c.tree) = some baseTree
          ∧ ∃ entries,
              lookupA srv'.trees (srv.nextSha + files.length) = some entries
              ∧ (∀ fc ∈ files, ∃ e, findEntry entries fc.1 = some e
                  ∧ e.mode = "100644" ∧ e.type = "blob"
                  ∧ lookupA srv'.blobs e.sha = some fc.2)
              ∧ (∀ p, p ∉ files.map Prod.fst →
                  findEntry entries p = findEntry baseTree p))
      ∧ srv'.refs = setRef srv.refs ("heads/" ++ branch) sha
      ∧ (∀ r2 srv2 trace2,
          create_commit_with_fixes srv branch files message
            = (r2, srv2, trace2) →
          r2 = ⟨true, some sha, none, "Commit created successfully"⟩
          ∧ srv2 = srv' ∧ trace2 = trace) := by
  unfold create_commit at h
  dsimp only at h
  split at h
  · exact absurd h (by simp)
  rename_i latest href
  simp only [Prod.mk.injEq] at h
  obtain ⟨h1, h2, h3⟩ := h
  have hcar : commitAfterRef srv ("heads/" ++ branch) latest files message
      = (.ok sha, srv',
         (commitAfterRef srv ("heads/" ++ branch) latest
            files message).2.2) := by
    rw [← h1, ← h2]
  obtain ⟨hc1, hc2, hc3, hc4⟩ :=
    commitAfterRef_ok srv ("heads/" ++ branch) latest files message sha srv'
      _ hnd hcar
  refine ⟨latest, href, by rw [← h3, hc1], hc2, hc3, hc4, ?_⟩
  intro r2 srv2 trace2 h2'
  unfold create_commit_with_fixes at h2'
  dsimp only at h2'
  rw [href] at h2'
  simp only [] at h2'
  rw [hcar] at h2'
  simp only [Prod.mk.injEq] at h2'
  obtain ⟨ha, hb, hc⟩ := h2'
  exact ⟨ha.symm, hb.symm, by rw [← hc, ← h3]⟩

/-- C2: whenever the platform rejects the final ref update (step 5), the
builder reports failure to the caller (a `success := false` dict with an
error code from `create_commit_with_fixes`, a propagated exception from
`create_commit`), the refs are exactly as before the attempt — the blob,
tree and commit objects created earlier are abandoned, not applied — and
at most one ref update is ever attempted (no automatic retry). -/
theorem commit_refupdate_failure_atomic (srv : GitServer) (branch : String)
    (files : List (String × String)) (message : String) (st : Nat)
    (hre : srv.refEditFail = some st) :
    ((create_commit_with_fixes srv branch files message).1.success = false
     ∧ ((create_commit_with_fixes srv branch files message).1.error).isSome
        = true
     ∧ (create_commit_with_fixes srv branch files message).2.1.refs
        = srv.refs
     ∧ ((create_commit_with_fixes srv branch files message).2.2).countP
        isUpdateRef ≤ 1)
    ∧ ((∃ st', (create_commit srv branch files message).1
          = Except.error st')
     ∧ (create_commit srv branch files message).2.1.refs = srv.refs
     ∧ ((create_commit srv branch files message).2.2).countP
        isUpdateRef ≤ 1) := by
  constructor
  · rcases hr : create_commit_with_fixes srv branch files message
      with ⟨r, s2, t2⟩
    unfold create_commit_with_fixes at hr
    dsimp only at hr
    split at hr
    · simp only [Prod.mk.injEq] at hr
      obtain ⟨h1, h2, h3⟩ := hr
      subst h1 h2 h3
      exact ⟨rfl, rfl, rfl, by simp [List.countP_cons, isUpdateRef]⟩
    · rename_i latest href
      split at hr
      · rename_i st0 s3 calls3 heq
        obtain ⟨hx1, hx2, hx3⟩ := commitAfterRef_refEditFail srv
          ("heads/" ++ branch) latest files message _ _ _ st hre heq
        simp only [Prod.mk.injEq] at hr
        obtain ⟨h1, h2, h3⟩ := hr
        subst h1 h2 h3
        refine ⟨rfl, rfl, hx2, ?_⟩
        simpa [List.countP_cons, isUpdateRef] using hx3
      · rename_i sha0 s3 calls3 heq
        obtain ⟨⟨st', hcontra⟩, _, _⟩ := commitAfterRef_refEditFail srv
          ("heads/" ++ branch) latest files message _ _ _ st hre heq
        exact absurd hcontra (by simp)
  · rcases hr : create_commit srv branch files message with ⟨res, s2, t2⟩
    unfold create_commit at hr
    dsimp only at hr
    split at hr
    · simp only [Prod.mk.injEq] at hr
      obtain ⟨h1, h2, h3⟩ := hr
      subst h1 h2 h3
      exact ⟨⟨404, rfl⟩, rfl, by simp [List.countP_cons, isUpdateRef]⟩
    · rename_i latest href
      simp only [Prod.mk.injEq] at hr
      obtain ⟨h1, h2, h3⟩ := hr
      obtain ⟨⟨st', hx1⟩, hx2, hx3⟩ := commitAfterRef_refEditFail srv
        ("heads/" ++ branch) latest files message _ _ _ st hre rfl
      refine ⟨⟨st', by rw [← h1]; exact hx1⟩, by rw [← h2]; exact hx2, ?_⟩
      rw [← h3]
      simpa [List.countP_cons, isUpdateRef] using hx3

/-- A small concrete repository used by the commit-builder witnesses:
one branch `main` whose tip commit `10` has a tree containing `old.py`. -/
def srvW : GitServer :=
  { refs := [("heads/main", 10)],
    commits := [(10, ⟨"init", 5, []⟩)],
    trees := [(5, [⟨"old.py", "100644", "blob", 3⟩])],
    blobs := [(3, "old")],
    nextSha := 100,
    refEditFail := none }

/-- The C1 witness run: commit `a.py` on `main`. -/
def ccW : Except Nat Nat × GitServer × List ApiCall :=
  create_commit srvW "main" [("a.py", "new")] "msg"

/-- Closed witness for `create_commit_strict_order`. -/
theorem create_commit_strict_order_witness :
    ∃ oldTip,
      lookupA srvW.refs ("heads/" ++ "main") = some oldTip
      ∧ ccW.2.2 = .getRef ("heads/" ++ "main")
          :: (([("a.py", "new")]).map (fun fc => ApiCall.createBlob fc.2)
              ++ [.createTree, .createCommit "msg",
                  .updateRef ("heads/" ++ "main") 102])
      ∧ lookupA ccW.2.1.commits 102
          = some ⟨"msg", srvW.nextSha + ([("a.py", "new")]).length, [oldTip]⟩
      ∧ (∃ baseTree,
          (lookupA srvW.commits oldTip).bind
              (fun c => lookupA srvW.trees c.tree) = some baseTree
          ∧ ∃ entries,
              lookupA ccW.2.1.trees
                  (srvW.nextSha + ([("a.py", "new")]).length) = some entries
              ∧ (∀ fc ∈ [("a.py", "new")], ∃ e, findEntry entries fc.1 = some e
                  ∧ e.mode = "100644" ∧ e.type = "blob"
                  ∧ lookupA ccW.2.1.blobs e.sha = some fc.2)
              ∧ (∀ p, p ∉ ([("a.py", "new")]).map Prod.fst →
                  findEntry entries p = findEntry baseTree p))
      ∧ ccW.2.1.refs = setRef srvW.refs ("heads/" ++ "main") 102
      ∧ (∀ r2 srv2 trace2,
          create_commit_with_fixes srvW "main" [("a.py", "new")] "msg"
            = (r2, srv2, trace2) →
          r2 = ⟨true, some 102, none, "Commit created successfully"⟩
          ∧ srv2 = ccW.2.1 ∧ trace2 = ccW.2.2) :=
  create_commit_strict_order srvW "main" [("a.py", "new")] "msg" 102
    ccW.2.1 ccW.2.2 (by decide) (by decide) rfl

/-- The C2 witness repository: same as `srvW` but the platform rejects
the ref update with HTTP 409. -/
def srvW2 : GitServer :=
  { srvW with refEditFail := some 409 }

/-- Closed witness for `commit_refupdate_failure_atomic`. -/
theorem commit_refupdate_failure_atomic_witness :
    (((create_commit_with_fixes srvW2 "main" [("a.py", "new")] "msg").1).success
        = false
     ∧ (((create_commit_with_fixes srvW2 "main"
            [("a.py", "new")] "msg").1).error).isSome = true
     ∧ (create_commit_with_fixes srvW2 "main" [("a.py", "new")] "msg").2.1.refs
        = srvW2.refs
     ∧ ((create_commit_with_fixes srvW2 "main"
          [("a.py", "new")] "msg").2.2).countP isUpdateRef ≤ 1)
    ∧ ((∃ st', (create_commit srvW2 "main" [("a.py", "new")] "msg").1
          = Except.error st')
     ∧ (create_commit srvW2 "main" [("a.py", "new")] "msg").2.1.refs
        = srvW2.refs
     ∧ ((create_commit srvW2 "main"
          [("a.py", "new")] "msg").2.2).countP isUpdateRef ≤ 1) :=
  commit_refupdate_failure_atomic srvW2 "main" [("a.py", "new")] "msg"
    409 rfl

/-! ## PR Data Fetcher (`GitHubService.get_pr_diff`,
`GitHubSimple.fetch_pr_data`)

The platform-side pull request is a `PlatformPR`; fetching one file's
content at the head SHA (`repo.get_contents(filename, ref=pr.head.sha)`
followed by UTF-8 decoding) is abstracted as an oracle
`contents : String → Option String`, where `none` models the raised
exception on fetch or decode failure. -/

/-- One element of `pr.get_files()`. -/
structure PlatformFile where
  filename : String
  status : String
  patch : Option String
  additions : Nat
  deletions : Nat
deriving DecidableEq, Repr

/-- The platform-side pull request object. -/
structure PlatformPR where
  number : Nat
  title : String
  body : Option String
  base_ref : String
  head_ref : String
  head_sha : Nat
  state : String
  user_login : String
  files : List PlatformFile
deriving DecidableEq, Repr

/-- One entry of the `files` list built by `get_pr_diff`. -/
structure DiffFile where
  filename : String
  status : String
  patch : Option String
  content : String
  additions : Nat
  deletions : Nat
deriving DecidableEq, Repr

/-- The snapshot dict returned by `get_pr_diff`. -/
structure PRDiff where
  pr_number : Nat
  title : String
  body : Option String
  base_branch : String
  head_branch : String
  head_sha : Nat
  files : List DiffFile
  author : String
deriving DecidableEq, Repr

/-- The file loop of `GitHubService.get_pr_diff` (lines 70-95): removed
files are skipped; on fetch failure `content` stays `None`; the entry is
appended only `if content:` — i.e. only when the fetch succeeded with a
non-empty string. -/
def get_pr_diff_files (contents : String → Option String) :
    List PlatformFile → List DiffFile
  | [] => []
  | f :: rest =>
    if f.status = "removed" then get_pr_diff_files contents rest
    else
      match contents f.filename with
      | some c =>
        if c = "" then get_pr_diff_files contents rest
        else ⟨f.filename, f.status, f.patch, c, f.additions, f.deletions⟩
            :: get_pr_diff_files contents rest
      | none => get_pr_diff_files contents rest

/-- Shallow embedding of `GitHubService.get_pr_diff`
(`backend/services/github_service.py`, lines 64-106). -/
def get_pr_diff (pr : PlatformPR) (contents : String → Option String) :
    PRDiff :=
  { pr_number := pr.number,
    title := pr.title,
    body := pr.body,
    base_branch := pr.base_ref,
    head_branch := pr.head_ref,
    head_sha := pr.head_sha,
    files := get_pr_diff_files contents pr.files,
    author := pr.user_login }

/-- One entry of the `files_changed` list built by `fetch_pr_data`. -/
structure SimpleFile where
  filename : String
  status : String
  patch : String
  additions : Nat
  deletions : Nat
  content : String
deriving DecidableEq, Repr

/-- The snapshot dict returned by `fetch_pr_data`. -/
structure SimplePR where
  pr_number : Nat
  title : String
  body : String
  base_branch : String
  head_branch : String
  head_sha : Nat
  author : String
  files_changed : List SimpleFile
  state : String
deriving DecidableEq, Repr

/-- The per-file body of `GitHubSimple.fetch_pr_data` (lines 58-76):
every file is included; `patch` defaults to `""`; content is fetched only
for non-removed files, and a fetch failure leaves `content = ""` with a
logged warning. -/
def fetch_file (contents : String → Option String) (f : PlatformFile) :
    SimpleFile :=
  { filename := f.filename,
    status := f.status,
    patch := f.patch.getD "",
    additions := f.additions,
    deletions := f.deletions,
    content := if f.status ≠ "removed" then (contents f.filename).getD ""
               else "" }

/-- Shallow embedding of `GitHubSimple.fetch_pr_data`
(`backend/services/github_simple.py`, lines 40-94). -/
def fetch_pr_data (pr : PlatformPR) (contents : String → Option String) :
    SimplePR :=
  { pr_number := pr.number,
    title := pr.title,
    body := pr.body.getD "",
    base_branch := pr.base_ref,
    head_branch := pr.head_ref,
    head_sha := pr.head_sha,
    author := pr.user_login,
    files_changed := pr.files.map (fetch_file contents),
    state := pr.state }

/-- Membership invariant of the `get_pr_diff` file loop, shared by the
C8 and C10 developments. -/
theorem get_pr_diff_files_mem (contents : String → Option String)
    (files : List PlatformFile) :
    ∀ e ∈ get_pr_diff_files contents files,
      e.status ≠ "removed" ∧ e.content ≠ ""
      ∧ ∃ f ∈ files, e.filename = f.filename ∧ e.status = f.status
          ∧ contents f.filename = some e.content := by
  induction files with
  | nil => simp [get_pr_diff_files]
  | cons f rest ih =>
    intro e he
    simp only [get_pr_diff_files] at he
    split at he
    · obtain ⟨h1, h2, g, hg, h3⟩ := ih e he
      exact ⟨h1, h2, g, List.mem_cons_of_mem f hg, h3⟩
    · rename_i hst
      split at he
      · rename_i c hc
        split at he
        · obtain ⟨h1, h2, g, hg, h3⟩ := ih e he
          exact ⟨h1, h2, g, List.mem_cons_of_mem f hg, h3⟩
        · rename_i hce
          rcases List.mem_cons.mp he with rfl | he
          · exact ⟨hst, hce, f, List.mem_cons_self f rest, rfl, rfl, hc⟩
          · obtain ⟨h1, h2, g, hg, h3⟩ := ih e he
            exact ⟨h1, h2, g, List.mem_cons_of_mem f hg, h3⟩
      · obtain ⟨h1, h2, g, hg, h3⟩ := ih e he
        exact ⟨h1, h2, g, List.mem_cons_of_mem f hg, h3⟩

/-- Completeness of the `get_pr_diff` file loop: a non-removed file whose
fetch succeeds with non-empty content does appear in the list. -/
theorem get_pr_diff_files_includes (contents : String → Option String)
    (files : List PlatformFile) :
    ∀ f ∈ files, f.status ≠ "removed" → ∀ c, contents f.filename = some c →
      c ≠ "" →
      (⟨f.filename, f.status, f.patch, c, f.additions, f.deletions⟩
        : DiffFile) ∈ get_pr_diff_files contents files := by
  induction files with
  | nil => simp
  | cons g rest ih =>
    intro f hf hst c hc hce
    rcases List.mem_cons.mp hf with rfl | hf
    · simp only [get_pr_diff_files, if_neg hst, hc, if_neg hce]
      exact List.mem_cons_self _ _
    · have hrec := ih f hf hst c hc hce
      simp only [get_pr_diff_files]
      split
      · exact hrec
      · split
        · split
          · exact hrec
          · exact List.mem_cons_of_mem _ hrec
        · exact hrec

/-- C10: every entry of the `files` list of a `get_pr_diff` snapshot has
status ≠ "removed" and non-empty content, and each one arises from a
platform file whose content fetch succeeded with exactly that non-empty
content — removed and unfetchable or undecodable files are omitted
entirely, so downstream review and autofix only see whole-file content. -/
theorem get_pr_diff_snapshot_invariant (pr : PlatformPR)
    (contents : String → Option String) :
    ∀ e ∈ (get_pr_diff pr contents).files,
      e.status ≠ "removed" ∧ e.content ≠ ""
      ∧ ∃ f ∈ pr.files, e.filename = f.filename ∧ e.status = f.status
          ∧ contents f.filename = some e.content :=
  fun e he => get_pr_diff_files_mem contents pr.files e he

/-- Closed witness for `get_pr_diff_snapshot_invariant`. -/
theorem get_pr_diff_snapshot_invariant_witness :
    (DiffFile.mk "a.py" "modified" none "x" 1 0).status ≠ "removed"
    ∧ (DiffFile.mk "a.py" "modified" none "x" 1 0).content ≠ ""
    ∧ ∃ f ∈ (PlatformPR.mk 1 "t" none "main" "feat" 7 "open" "me"
          [⟨"a.py", "modified", none, 1, 0⟩]).files,
        (DiffFile.mk "a.py" "modified" none "x" 1 0).filename = f.filename
        ∧ (DiffFile.mk "a.py" "modified" none "x" 1 0).status = f.status
        ∧ (fun fn => if fn = "a.py" then some "x" else none) f.filename
            = some (DiffFile.mk "a.py" "modified" none "x" 1 0).content :=
  get_pr_diff_snapshot_invariant
    (PlatformPR.mk 1 "t" none "main" "feat" 7 "open" "me"
      [⟨"a.py", "modified", none, 1, 0⟩])
    (fun fn => if fn = "a.py" then some "x" else none)
    (DiffFile.mk "a.py" "modified" none "x" 1 0) (by decide)

/-- C8 counterexample: a non-removed file whose content fetch fails is
omitted entirely from the `get_pr_diff` snapshot — it is not "included
with content = ''" as claimed.  (`fetch_pr_data` does include it with
empty content.) -/
theorem get_pr_diff_omits_failed_file :
    (get_pr_diff
        (PlatformPR.mk 2 "t" none "main" "feat" 7 "open" "me"
          [⟨"bad.py", "modified", none, 1, 0⟩]) (fun _ => none)).files = []
    ∧ (fetch_pr_data
        (PlatformPR.mk 2 "t" none "main" "feat" 7 "open" "me"
          [⟨"bad.py", "modified", none, 1, 0⟩]) (fun _ => none)).files_changed
      = [⟨"bad.py", "modified", "", 1, 0, ""⟩] := by
  exact ⟨rfl, rfl⟩

/-- C8 (amended): a per-file content-fetch failure is non-fatal in both
fetchers, but they differ on the failed file itself.
`GitHubSimple.fetch_pr_data` still includes it, with `content = ""` (and a
logged warning); `GitHubService.get_pr_diff` omits it from the snapshot
entirely.  In both, every other non-removed file whose fetch succeeds
with non-empty content is still fetched and included. -/
theorem fetch_failure_nonfatal (pr : PlatformPR)
    (contents : String → Option String) :
    (∀ f ∈ pr.files, f.status ≠ "removed" → contents f.filename = none →
      fetch_file contents f ∈ (fetch_pr_data pr contents).files_changed
      ∧ (fetch_file contents f).content = "")
    ∧ (∀ e ∈ (get_pr_diff pr contents).files,
        contents e.filename = some e.content ∧ e.content ≠ "")
    ∧ (∀ g ∈ pr.files, g.status ≠ "removed" → ∀ c,
        contents g.filename = some c → c ≠ "" →
        fetch_file contents g ∈ (fetch_pr_data pr contents).files_changed
        ∧ (fetch_file contents g).content = c
        ∧ (⟨g.filename, g.status, g.patch, c, g.additions, g.deletions⟩
            : DiffFile) ∈ (get_pr_diff pr contents).files) := by
  refine ⟨fun f hf hst hc => ⟨List.mem_map_of_mem _ hf, ?_⟩,
    fun e he => ?_, fun g hg hst c hc hce => ⟨List.mem_map_of_mem _ hg, ?_,
      get_pr_diff_files_includes contents pr.files g hg hst c hc hce⟩⟩
  · simp [fetch_file, if_pos hst, hc]
  · obtain ⟨h1, h2, f, hf, hfn, hfs, hfc⟩ :=
      get_pr_diff_files_mem contents pr.files e he
    rw [hfn]
    exact ⟨hfc, h2⟩
  · simp [fetch_file, if_pos hst, hc]

/-- Closed witness for `fetch_failure_nonfatal`: one failing and one
succeeding file. -/
theorem fetch_failure_nonfatal_witness :
    fetch_file (fun fn => if fn = "ok.py" then some "y" else none)
        ⟨"bad.py", "modified", none, 1, 0⟩
      ∈ (fetch_pr_data
          (PlatformPR.mk 3 "t" none "main" "feat" 7 "open" "me"
            [⟨"bad.py", "modified", none, 1, 0⟩,
             ⟨"ok.py", "modified", none, 2, 0⟩])
          (fun fn => if fn = "ok.py" then some "y" else none)).files_changed
    ∧ (fetch_file (fun fn => if fn = "ok.py" then some "y" else none)
        ⟨"bad.py", "modified", none, 1, 0⟩).content = "" := by
  exact (fetch_failure_nonfatal
    (PlatformPR.mk 3 "t" none "main" "feat" 7 "open" "me"
      [⟨"bad.py", "modified", none, 1, 0⟩, ⟨"ok.py", "modified", none, 2, 0⟩])
    (fun fn => if fn = "ok.py" then some "y" else none)).1
    ⟨"bad.py", "modified", none, 1, 0⟩ (by decide) (by decide) (by decide)

/-! ## Language detection (`GitHubSimple.detect_language`,
`PatchworkGitHub._detect_language`) -/

/-- Python `str.split(sep)` for single-character separators, on `String`
(structural, via `pysplit`). -/
def splitOnChar (sep : Char) (s : String) : List String :=
  (pysplit sep s.toList).map (fun l => ⟨l⟩)

/-- `str.lower()` (ASCII behaviour). -/
def toLowerStr (s : String) : String := ⟨s.toList.map Char.toLower⟩

/-- The extension part of `os.path.splitext(p)` (posixpath semantics):
the suffix from the last `'.'` of the basename, unless every character
before that dot in the basename is itself a dot (leading dots carry no
extension). -/
def splitextExt (p : String) : String :=
  let base := (splitOnChar '/' p).getLastD ""
  let parts := splitOnChar '.' base
  match parts with
  | [] => ""
  | [_] => ""
  | ps => if ps.dropLast.all (fun s => decide (s = "")) then ""
          else "." ++ ps.getLastD ""

/-- The `ext_map` dict of `GitHubSimple.detect_language` (lines 233-242). -/
def ext_map : List (String × String) :=
  [(".py", "python"), (".js", "javascript"), (".ts", "typescript"),
   (".java", "java"), (".cpp", "cpp"), (".c", "c"), (".go", "go"),
   (".rs", "rust")]

/-- Shallow embedding of `GitHubSimple.detect_language` (lines 231-244):
`ext_map.get(ext.lower(), "python")` over the `os.path.splitext`
extension. -/
def detect_language (filename : String) : String :=
  (lookupA ext_map (toLowerStr (splitextExt filename))).getD "python"

/-- The `mapping` dict of `PatchworkGitHub._detect_language`
(lines 112-117). -/
def patchworkLangMap : List (String × String) :=
  [("py", "Python"), ("js", "JavaScript"), ("ts", "TypeScript"),
   ("java", "Java"), ("cpp", "C++"), ("c", "C"), ("go", "Go"),
   ("rs", "Rust"), ("php", "PHP"), ("rb", "Ruby"), ("html", "HTML"),
   ("css", "CSS"), ("jsx", "React JavaScript"), ("tsx", "React TypeScript")]

/-- `filename.split('.')[-1]`. -/
def lastDotComponent (filename : String) : String :=
  (splitOnChar '.' filename).getLastD ""

/-- Shallow embedding of `PatchworkGitHub._detect_language`
(`backend/services/patchwork_github.py`, lines 110-118): `mapping.get(ext)`
— `None` (no fallback) for unknown extensions. -/
def patchworkDetectLanguage (filename : String) : Option String :=
  lookupA patchworkLangMap (toLowerStr (lastDotComponent filename))

/-! ## Installation Auth Manager (`GitHubService.get_installation_client`) -/

/-- Shallow embedding of `GitHubService.get_installation_client`
(`backend/services/github_service.py`, lines 35-43).

* `integration` is `none` when the GitHub App credentials were not
  configured (the constructor leaves `self.integration = None`).
* The platform's token-exchange endpoint
  (`self.integration.get_access_token(installation_id)`) is abstracted as
  `issue installation_id n`, the token it returns for the process's
  `n`-th exchange; `exchanges` counts exchanges performed so far.
* The function body performs the exchange unconditionally on every call —
  there is no cache field anywhere in the class — and returns a client
  holding the freshly issued token, together with the bumped exchange
  counter. -/
def get_installation_client (integration : Option Unit)
    (issue : Nat → Nat → String) (exchanges : Nat) (installation_id : Nat) :
    Except String (String × Nat) :=
  match integration with
  | none => .error "GitHub App not configured properly"
  | some _ => .ok (issue installation_id exchanges, exchanges + 1)

/-- C5 counterexample: with the platform issuing a distinct token per
exchange, a second `get_installation_client` call for the same
installation performs a second exchange (counter 1 → 2) and returns a
different token — there is no cache hit. -/
theorem get_installation_client_no_cache :
    get_installation_client (some ()) (fun _ n => toString n) 0 7
      = .ok ("0", 1)
    ∧ get_installation_client (some ()) (fun _ n => toString n) 1 7
      = .ok ("1", 2)
    ∧ ("1" : String) ≠ "0" := by
  exact ⟨rfl, rfl, by decide⟩

/-- C5 (amended): every `get_installation_client` call with configured
credentials performs exactly one fresh token exchange with the platform
and returns a client holding whatever token that exchange issued; no
cache is consulted or populated.  Without configured credentials it
raises. -/
theorem get_installation_client_fresh_exchange
    (issue : Nat → Nat → String) (exchanges installation_id : Nat) :
    get_installation_client (some ()) issue exchanges installation_id
      = .ok (issue installation_id exchanges, exchanges + 1)
    ∧ get_installation_client none issue exchanges installation_id
      = .error "GitHub App not configured properly" :=
  ⟨rfl, rfl⟩

/-! ## Review/Autofix Task Runner

Two autofix entry points exist in the source: the HTTP endpoint
`autofix_pr` in `backend/routers/github_simple.py` (review-gated, raw
string comparison, explicit PR-state check) and the webhook background
task `PatchworkGitHub.autofix_pr` in
`backend/services/patchwork_github.py` (no review, `strip()` comparison,
no PR-state check).  The external review/rewrite collaborators are
abstracted as oracle functions. -/

/-- Python `str.strip()`: remove leading and trailing whitespace. -/
def pstrip (s : String) : String :=
  ⟨((s.toList.dropWhile Char.isWhitespace).reverse.dropWhile
      Char.isWhitespace).reverse⟩

/-- Result of `groq.review_code` as consumed by the endpoint:
`success` plus `counts.get("critical", 0)` and `counts.get("high", 0)`. -/
structure GroqReview where
  success : Bool
  critical : Nat
  high : Nat
deriving DecidableEq, Repr

/-- Result of `groq.rewrite_code`. -/
structure GroqRewrite where
  success : Bool
  rewritten_code : String
deriving DecidableEq, Repr

/-- The per-file loop of the `/api/github-simple/autofix-pr` endpoint
(`backend/routers/github_simple.py`, lines 122-148): skip removed or
contentless files; review; if `critical + high > 0` invoke the rewrite
collaborator; accept into the FixSet iff `fixed_code != file["content"]`
(plain string comparison).  Returns the FixSet, the vulnerability
counter, and the list of files for which the rewrite collaborator was
invoked. -/
def simpleAutofixLoop (reviewFn : String → String → GroqReview)
    (rewriteFn : String → String → GroqRewrite) :
    List SimpleFile → List (String × String) × Nat × List String
  | [] => ([], 0, [])
  | f :: rest =>
    let r := simpleAutofixLoop reviewFn rewriteFn rest
    if f.status = "removed" ∨ f.content = "" then r
    else
      let language := detect_language f.filename
      let review := reviewFn f.content language
      if review.success then
        if 0 < review.critical + review.high then
          let rewrite := rewriteFn f.content language
          if rewrite.success then
            if rewrite.rewritten_code ≠ f.content then
              ((f.filename, rewrite.rewritten_code) :: r.1,
               review.critical + review.high + r.2.1, f.filename :: r.2.2)
            else (r.1, r.2.1, f.filename :: r.2.2)
          else (r.1, r.2.1, f.filename :: r.2.2)
        else r
      else r

/-- The response dict of the autofix endpoint (normalised shape). -/
structure AutofixResponse where
  success : Bool
  error : Option String
  files_fixed : Nat
  vulnerabilities_resolved : Nat
  commit_sha : Option Nat
deriving DecidableEq, Repr

/-- Shallow embedding of the `/api/github-simple/autofix-pr` endpoint
(`backend/routers/github_simple.py`, lines 97-204): fetch the snapshot,
abort with `pr_closed` when the PR state is not `open`, build the FixSet,
and commit via `create_commit_with_fixes` only when `auto_commit` is set
and the FixSet is non-empty.  The posted summary comment is outside the
model; `srv` is the platform git state. -/
def autofix_pr (pr : PlatformPR) (contents : String → Option String)
    (reviewFn : String → String → GroqReview)
    (rewriteFn : String → String → GroqRewrite)
    (auto_commit : Bool) (srv : GitServer) :
    AutofixResponse × GitServer × List ApiCall :=
  let pr_data := fetch_pr_data pr contents
  if pr_data.state ≠ "open" then
    (⟨false, some "pr_closed", 0, 0, none⟩, srv, [])
  else
    let r := simpleAutofixLoop reviewFn rewriteFn pr_data.files_changed
    if auto_commit ∧ r.1 ≠ [] then
      let cres := create_commit_with_fixes srv pr_data.head_branch r.1
        ("🤖 Auto-fix: Resolved " ++ toString r.2.1 ++ " issues")
      if cres.1.success then
        (⟨true, none, r.1.length, r.2.1, cres.1.commit_sha⟩,
         cres.2.1, cres.2.2)
      else
        (⟨false, cres.1.error, r.1.length, r.2.1, none⟩, cres.2.1, cres.2.2)
    else
      (⟨true, none, r.1.length, r.2.1, none⟩, srv, [])

/-- Result of `patchwork_service.rewrite_code`: either `{"error": str}`
or a dict with `rewritten_code` (possibly empty). -/
structure PWRewrite where
  error : Option String
  rewritten_code : Option String
deriving DecidableEq, Repr

/-- The per-file loop of `PatchworkGitHub.autofix_pr` (lines 60-78): skip
files with unknown language; invoke the rewrite collaborator for every
remaining file (no review and no severity gate on this path); accept into
the FixSet iff no error, truthy `rewritten_code`, and the rewritten code
differs from the original after `strip()`. -/
def patchworkAutofixLoop (rewriteFn : String → String → PWRewrite) :
    List DiffFile → List (String × String) × Nat × List String
  | [] => ([], 0, [])
  | f :: rest =>
    let r := patchworkAutofixLoop rewriteFn rest
    match patchworkDetectLanguage f.filename with
    | none => r
    | some language =>
      let result := rewriteFn f.content language
      if result.error = none then
        match result.rewritten_code with
        | some code =>
          if code ≠ "" then
            if pstrip code ≠ pstrip f.content then
              ((f.filename, code) :: r.1, r.2.1 + 1, f.filename :: r.2.2)
            else (r.1, r.2.1, f.filename :: r.2.2)
          else (r.1, r.2.1, f.filename :: r.2.2)
        | none => (r.1, r.2.1, f.filename :: r.2.2)
      else (r.1, r.2.1, f.filename :: r.2.2)

/-- Result dict of `PatchworkGitHub.autofix_pr`: the success shape
`{pr_number, files_fixed, commit_sha}` or the caught-exception shape
`{"error": str(e)}`. -/
structure PWAutofixResult where
  pr_number : Option Nat
  files_fixed : Option Nat
  commit_sha : Option Nat
  error : Option String
deriving DecidableEq, Repr

/-- Shallow embedding of `PatchworkGitHub.autofix_pr`
(`backend/services/patchwork_github.py`, lines 52-108): fetch the PR
snapshot via `get_pr_diff`, rewrite files — with no PR-state check
anywhere on this path — and if the FixSet is non-empty call
`GitHubService.create_commit` on the PR's head branch; a raised
`GithubException` is caught by the outer handler and reported as
`{"error": str(e)}`.  The summary comment is outside the model. -/
def patchwork_autofix_pr (pr : PlatformPR)
    (contents : String → Option String)
    (rewriteFn : String → String → PWRewrite) (srv : GitServer) :
    PWAutofixResult × GitServer × List ApiCall :=
  let pr_data := get_pr_diff pr contents
  let r := patchworkAutofixLoop rewriteFn pr_data.files
  if r.1 = [] then
    (⟨some pr_data.pr_number, some 0, none, none⟩, srv, [])
  else
    let cres := create_commit srv pr_data.head_branch r.1
      "🤖 AI Auto-fix: Improved code quality and security"
    match cres.1 with
    | .ok sha =>
      (⟨some pr_data.pr_number, some r.1.length, some sha, none⟩,
       cres.2.1, cres.2.2)
    | .error st =>
      (⟨none, none, none, some ("GithubException: status " ++ toString st)⟩,
       cres.2.1, cres.2.2)

/-- Every file for which the endpoint loop invoked the rewrite
collaborator passed the gate: non-removed, non-empty content, successful
review, and `critical + high > 0`. -/
theorem simpleAutofixLoop_calls_mem (reviewFn : String → String → GroqReview)
    (rewriteFn : String → String → GroqRewrite) (files : List SimpleFile) :
    ∀ fn ∈ (simpleAutofixLoop reviewFn rewriteFn files).2.2,
      ∃ f ∈ files, fn = f.filename
        ∧ ¬(f.status = "removed" ∨ f.content = "")
        ∧ (reviewFn f.content (detect_language f.filename)).success = true
        ∧ 0 < (reviewFn f.content (detect_language f.filename)).critical
            + (reviewFn f.content (detect_language f.filename)).high := by
  induction files with
  | nil => simp [simpleAutofixLoop]
  | cons f rest ih =>
    intro fn hfn
    simp only [simpleAutofixLoop] at hfn
    split at hfn
    · obtain ⟨g, hg, h⟩ := ih fn hfn
      exact ⟨g, List.mem_cons_of_mem f hg, h⟩
    · rename_i hskip
      split at hfn
      · rename_i hsucc
        split at hfn
        · rename_i hgt
          split at hfn
          · split at hfn
            · rcases List.mem_cons.mp hfn with rfl | hfn
              · exact ⟨f, List.mem_cons_self f rest, rfl, hskip, hsucc, hgt⟩
              · obtain ⟨g, hg, h⟩ := ih fn hfn
                exact ⟨g, List.mem_cons_of_mem f hg, h⟩
            · rcases List.mem_cons.mp hfn with rfl | hfn
              · exact ⟨f, List.mem_cons_self f rest, rfl, hskip, hsucc, hgt⟩
              · obtain ⟨g, hg, h⟩ := ih fn hfn
                exact ⟨g, List.mem_cons_of_mem f hg, h⟩
          · rcases List.mem_cons.mp hfn with rfl | hfn
            · exact ⟨f, List.mem_cons_self f rest, rfl, hskip, hsucc, hgt⟩
            · obtain ⟨g, hg, h⟩ := ih fn hfn
              exact ⟨g, List.mem_cons_of_mem f hg, h⟩
        · obtain ⟨g, hg, h⟩ := ih fn hfn
          exact ⟨g, List.mem_cons_of_mem f hg, h⟩
      · obtain ⟨g, hg, h⟩ := ih fn hfn
        exact ⟨g, List.mem_cons_of_mem f hg, h⟩

/-- Every FixSet entry of the endpoint loop comes from a gated file whose
rewrite succeeded with content differing (raw comparison) from the
original. -/
theorem simpleAutofixLoop_fixset_mem (reviewFn : String → String → GroqReview)
    (rewriteFn : String → String → GroqRewrite) (files : List SimpleFile) :
    ∀ p ∈ (simpleAutofixLoop reviewFn rewriteFn files).1,
      ∃ f ∈ files, p.1 = f.filename
        ∧ ¬(f.status = "removed" ∨ f.content = "")
        ∧ (reviewFn f.content (detect_language f.filename)).success = true
        ∧ 0 < (reviewFn f.content (detect_language f.filename)).critical
            + (reviewFn f.content (detect_language f.filename)).high
        ∧ (rewriteFn f.content (detect_language f.filename)).success = true
        ∧ p.2 = (rewriteFn f.content (detect_language f.filename)).rewritten_code
        ∧ p.2 ≠ f.content := by
  induction files with
  | nil => simp [simpleAutofixLoop]
  | cons f rest ih =>
    intro p hp
    simp only [simpleAutofixLoop] at hp
    split at hp
    · obtain ⟨g, hg, h⟩ := ih p hp
      exact ⟨g, List.mem_cons_of_mem f hg, h⟩
    · rename_i hskip
      split at hp
      · rename_i hsucc
        split at hp
        · rename_i hgt
          split at hp
          · rename_i hrw
            split at hp
            · rename_i hne
              rcases List.mem_cons.mp hp with rfl | hp
              · exact ⟨f, List.mem_cons_self f rest, rfl, hskip, hsucc, hgt,
                  hrw, rfl, hne⟩
              · obtain ⟨g, hg, h⟩ := ih p hp
                exact ⟨g, List.mem_cons_of_mem f hg, h⟩
            · obtain ⟨g, hg, h⟩ := ih p hp
              exact ⟨g, List.mem_cons_of_mem f hg, h⟩
          · obtain ⟨g, hg, h⟩ := ih p hp
            exact ⟨g, List.mem_cons_of_mem f hg, h⟩
        · obtain ⟨g, hg, h⟩ := ih p hp
          exact ⟨g, List.mem_cons_of_mem f hg, h⟩
      · obtain ⟨g, hg, h⟩ := ih p hp
        exact ⟨g, List.mem_cons_of_mem f hg, h⟩

/-- A concrete PR on branch `feat`, open. -/
def prOpenW : PlatformPR :=
  { number := 6, title := "t", body := none, base_ref := "main",
    head_ref := "feat", head_sha := 7, state := "open", user_login := "me",
    files := [⟨"a.py", "modified", none, 1, 0⟩] }

/-- The same PR, closed. -/
def prClosedW : PlatformPR :=
  { prOpenW with number := 5, state := "closed" }

/-- A server carrying branch `feat`. -/
def srvFeat : GitServer :=
  { refs := [("heads/feat", 10)],
    commits := [(10, ⟨"init", 5, []⟩)],
    trees := [(5, [])],
    blobs := [],
    nextSha := 100,
    refEditFail := none }

/-- C7 counterexample: a rewrite that only appends a newline is
strip-equal to the original, yet the endpoint's raw comparison
(`fixed_code != file["content"]`, no `strip()`) accepts it into the
FixSet and the Commit Builder is invoked — one ref update happens. -/
theorem whitespace_rewrite_still_committed :
    pstrip "x\n" = pstrip "x"
    ∧ (simpleAutofixLoop (fun _ _ => ⟨true, 1, 0⟩)
        (fun c _ => ⟨true, c ++ "\n"⟩)
        [⟨"a.py", "modified", "", 1, 0, "x"⟩]).1 = [("a.py", "x\n")]
    ∧ ((autofix_pr prOpenW (fun _ => some "x") (fun _ _ => ⟨true, 1, 0⟩)
        (fun c _ => ⟨true, c ++ "\n"⟩) true srvFeat).2.2).countP isUpdateRef
      = 1
    ∧ (autofix_pr prOpenW (fun _ => some "x") (fun _ _ => ⟨true, 1, 0⟩)
        (fun c _ => ⟨true, c ++ "\n"⟩) true srvFeat).1.commit_sha
      = some 102 := by
  exact ⟨rfl, rfl, rfl, rfl⟩

/-- C7 (amended): in the autofix endpoint the rewrite collaborator is
invoked only for files whose successful review reported
`critical + high > 0`; a rewritten content enters the FixSet only if it
differs from the original by plain string comparison (a whitespace-only
difference still counts as a change); and if the FixSet is empty the Commit
Builder is never invoked — the server state is untouched and no API call
is made. -/
theorem simple_autofix_gate (reviewFn : String → String → GroqReview)
    (rewriteFn : String → String → GroqRewrite) (files : List SimpleFile) :
    (∀ fn ∈ (simpleAutofixLoop reviewFn rewriteFn files).2.2,
      ∃ f ∈ files, fn = f.filename
        ∧ ¬(f.status = "removed" ∨ f.content = "")
        ∧ (reviewFn f.content (detect_language f.filename)).success = true
        ∧ 0 < (reviewFn f.content (detect_language f.filename)).critical
            + (reviewFn f.content (detect_language f.filename)).high)
    ∧ (∀ p ∈ (simpleAutofixLoop reviewFn rewriteFn files).1,
        ∃ f ∈ files, p.1 = f.filename
          ∧ (rewriteFn f.content (detect_language f.filename)).success = true
          ∧ p.2 = (rewriteFn f.content
              (detect_language f.filename)).rewritten_code
          ∧ p.2 ≠ f.content)
    ∧ (∀ pr contents auto_commit srv,
        (simpleAutofixLoop reviewFn rewriteFn
            (fetch_pr_data pr contents).files_changed).1 = [] →
        (autofix_pr pr contents reviewFn rewriteFn auto_commit srv).2.1 = srv
        ∧ (autofix_pr pr contents reviewFn rewriteFn auto_commit srv).2.2
          = []) := by
  refine ⟨simpleAutofixLoop_calls_mem reviewFn rewriteFn files,
    fun p hp => ?_, fun pr contents auto_commit srv hempty => ?_⟩
  · obtain ⟨f, hf, h1, _, _, _, h5, h6, h7⟩ :=
      simpleAutofixLoop_fixset_mem reviewFn rewriteFn files p hp
    exact ⟨f, hf, h1, h5, h6, h7⟩
  · unfold autofix_pr
    dsimp only
    by_cases hst : (fetch_pr_data pr contents).state ≠ "open"
    · rw [if_pos hst]
      exact ⟨rfl, rfl⟩
    · rw [if_neg hst]
      have hcond : ¬(auto_commit = true ∧ (simpleAutofixLoop reviewFn
          rewriteFn (fetch_pr_data pr contents).files_changed).1 ≠ []) :=
        fun hc => hc.2 hempty
      rw [if_neg hcond]
      exact ⟨rfl, rfl⟩

/-- Closed witness for `simple_autofix_gate`: a clean review
(`critical = high = 0`) produces an empty FixSet, so the endpoint leaves
the server untouched and issues no API call. -/
theorem simple_autofix_gate_witness :
    (autofix_pr prOpenW (fun _ => some "x") (fun _ _ => ⟨true, 0, 0⟩)
        (fun c _ => ⟨true, c ++ "!"⟩) true srvFeat).2.1 = srvFeat
    ∧ (autofix_pr prOpenW (fun _ => some "x") (fun _ _ => ⟨true, 0, 0⟩)
        (fun c _ => ⟨true, c ++ "!"⟩) true srvFeat).2.2 = [] :=
  (simple_autofix_gate (fun _ _ => ⟨true, 0, 0⟩)
      (fun c _ => ⟨true, c ++ "!"⟩)
      (fetch_pr_data prOpenW (fun _ => some "x")).files_changed).2.2
    prOpenW (fun _ => some "x") true srvFeat rfl

/-- C6 counterexample: an issue-comment `/patchwork autofix` is routed to
`PatchworkGitHub.autofix_pr`, which never checks the PR state: on a PR
with `state = "closed"` it still rewrites and commits — the result
reports a commit SHA, not `pr_closed`, and one ref update is issued. -/
theorem patchwork_autofix_commits_on_closed_pr :
    prClosedW.state ≠ "open"
    ∧ (patchwork_autofix_pr prClosedW (fun _ => some "code")
        (fun _ _ => ⟨none, some "fixed"⟩) srvFeat).1.commit_sha = some 102
    ∧ ((patchwork_autofix_pr prClosedW (fun _ => some "code")
        (fun _ _ => ⟨none, some "fixed"⟩) srvFeat).2.2).countP isUpdateRef
      = 1
    ∧ (patchwork_autofix_pr prClosedW (fun _ => some "code")
        (fun _ _ => ⟨none, some "fixed"⟩) srvFeat).1.error = none := by
  exact ⟨by decide, by decide, by decide, by decide⟩

/-- C6 (amended): only the HTTP endpoint checks the PR state — for a
non-open PR it aborts with a structured `pr_closed` result before any
review, rewrite or commit work (server untouched, no API calls).  The
webhook-driven `PatchworkGitHub.autofix_pr` ignores the PR state
entirely: its behaviour is identical for every state value, and it will
commit to a closed PR when fixes exist. -/
theorem autofix_entry_state_check (pr : PlatformPR)
    (contents : String → Option String)
    (reviewFn : String → String → GroqReview)
    (rewriteFn : String → String → GroqRewrite)
    (pwRewriteFn : String → String → PWRewrite)
    (auto_commit : Bool) (srv : GitServer)
    (hst : pr.state ≠ "open") :
    autofix_pr pr contents reviewFn rewriteFn auto_commit srv
      = (⟨false, some "pr_closed", 0, 0, none⟩, srv, [])
    ∧ (∀ s', patchwork_autofix_pr { pr with state := s' } contents
          pwRewriteFn srv
        = patchwork_autofix_pr pr contents pwRewriteFn srv) := by
  constructor
  · have hst2 : (fetch_pr_data pr contents).state ≠ "open" := hst
    unfold autofix_pr
    dsimp only
    rw [if_pos hst2]
  · intro s'
    rfl

/-- Closed witness for `autofix_entry_state_check`. -/
theorem autofix_entry_state_check_witness :
    autofix_pr prClosedW (fun _ => some "code") (fun _ _ => ⟨true, 1, 0⟩)
        (fun c _ => ⟨true, c⟩) true srvFeat
      = (⟨false, some "pr_closed", 0, 0, none⟩, srvFeat, []) :=
  (autofix_entry_state_check prClosedW (fun _ => some "code")
    (fun _ _ => ⟨true, 1, 0⟩) (fun c _ => ⟨true, c⟩)
    (fun _ _ => ⟨none, none⟩) true srvFeat (by decide)).1

/-- C9 counterexample: the extension `xyz` is unknown to both maps.
`GitHubSimple.detect_language` falls back to `"python"`, but
`PatchworkGitHub._detect_language` returns `None` and the patchwork
autofix loop skips the file entirely — the rewriter is never invoked and
nothing is fixed, contradicting "the file is still processed". -/
theorem patchwork_unknown_extension_skipped :
    patchworkDetectLanguage "file.xyz" = none
    ∧ detect_language "file.xyz" = "python"
    ∧ patchworkAutofixLoop (fun c _ => ⟨none, some (c ++ "!")⟩)
        [⟨"file.xyz", "modified", none, "code", 1, 0⟩] = ([], 0, []) := by
  exact ⟨rfl, rfl, rfl⟩

/-- C9 (amended): each detector is a pure function of its notion of file
extension via a fixed mapping.  `GitHubSimple.detect_language`
(`os.path.splitext` extension, lower-cased) falls back to `"python"` for
unknown extensions, so such files are still processed;
`PatchworkGitHub._detect_language` (`filename.split('.')[-1]`,
lower-cased) has no fallback — unknown extensions yield no language and
the patchwork review/autofix loops skip those files. -/
theorem detect_language_spec :
    (∀ f1 f2 : String, splitextExt f1 = splitextExt f2 →
        detect_language f1 = detect_language f2)
    ∧ (∀ filename, toLowerStr (splitextExt filename) ∉ ext_map.map Prod.fst →
        detect_language filename = "python")
    ∧ (∀ f1 f2 : String, lastDotComponent f1 = lastDotComponent f2 →
        patchworkDetectLanguage f1 = patchworkDetectLanguage f2)
    ∧ (∀ filename, toLowerStr (lastDotComponent filename)
          ∉ patchworkLangMap.map Prod.fst →
        patchworkDetectLanguage filename = none)
    ∧ (∀ (rewriteFn : String → String → PWRewrite) (f : DiffFile)
        (rest : List DiffFile), patchworkDetectLanguage f.filename = none →
        patchworkAutofixLoop rewriteFn (f :: rest)
          = patchworkAutofixLoop rewriteFn rest) := by
  refine ⟨fun f1 f2 h => by rw [detect_language, detect_language, h],
    fun filename h => ?_,
    fun f1 f2 h => by rw [patchworkDetectLanguage,
      patchworkDetectLanguage, h],
    fun filename h => lookupA_eq_none _ _ h,
    fun rewriteFn f rest h => ?_⟩
  · rw [detect_language, lookupA_eq_none _ _ h]
    rfl
  · simp only [patchworkAutofixLoop, h]

/-- Closed witness for `detect_language_spec`. -/
theorem detect_language_spec_witness :
    detect_language "file.xyz" = "python"
    ∧ patchworkDetectLanguage "file.xyz" = none :=
  ⟨detect_language_spec.2.1 "file.xyz" (by decide),
   detect_language_spec.2.2.2.1 "file.xyz" (by decide)⟩

end GenAI
